import Mathlib

/-!
Verification of the TEXTWEAVE handwriting-OCR backend
(Flask app `app.py` plus the `ocr_utils` package) against its
natural-language specification.

Strings are modelled as `List Char` (sequences of Unicode codepoints),
the filesystem of the upload directory as a membership predicate on
paths, and the two external libraries (OpenCV's decoder/blur/local-mean
and the EasyOCR engine) as parameters of an environment structure: the
repository's own code — validation, control flow, thresholding
comparison, concatenation and text cleanup — is embedded concretely.
-/

namespace Textweave

/-! ### Text normalizer (`ocr_utils/postprocess.py`, `clean_text`) -/

/-- The characters matched by Python's `\s` regex class (and by
`str.isspace`, used by `str.strip`) on `str` inputs: ASCII whitespace,
the file/group/record/unit separators, and the Unicode space characters. -/
def isPySpace (c : Char) : Bool :=
  c == ' ' || c == '\t' || c == '\n' || c == '\r' || c == '\x0b' || c == '\x0c' ||
  c == '\x1c' || c == '\x1d' || c == '\x1e' || c == '\x1f' ||
  c == '\u0085' || c == ' ' || c == ' ' ||
  c == ' ' || c == ' ' || c == ' ' || c == ' ' || c == ' ' ||
  c == ' ' || c == ' ' || c == ' ' || c == ' ' || c == ' ' ||
  c == ' ' || c == ' ' || c == ' ' || c == ' ' || c == ' ' ||
  c == '　'

/-- The character class kept by `re.sub(r'[^\x20-\x7E]', '', text)`:
printable ASCII, 0x20 through 0x7E inclusive. -/
def isPrintableAscii (c : Char) : Bool :=
  decide (0x20 ≤ c.toNat) && decide (c.toNat ≤ 0x7e)

/-- `re.sub(r'\s+', ' ', text)`: each maximal run of whitespace becomes a
single space.  The flag records whether we are inside a whitespace run
whose replacement space has already been emitted. -/
def collapseAux : Bool → List Char → List Char
  | _, [] => []
  | inRun, c :: cs =>
    if isPySpace c then
      if inRun then collapseAux true cs else ' ' :: collapseAux true cs
    else c :: collapseAux false cs

def collapseWs (l : List Char) : List Char := collapseAux false l

/-- Remove trailing whitespace (the right half of Python's `str.strip`). -/
def rstripChars : List Char → List Char
  | [] => []
  | c :: l =>
    match rstripChars l with
    | [] => if isPySpace c then [] else [c]
    | c' :: l' => c :: c' :: l'

/-- Python's `str.strip()`: drop leading and trailing whitespace. -/
def stripChars (l : List Char) : List Char :=
  rstripChars (l.dropWhile isPySpace)

/-- `clean_text` from `ocr_utils/postprocess.py`: remove non-printable
characters, collapse whitespace runs, strip the ends. -/
def clean_text (s : List Char) : List Char :=
  stripChars (collapseWs (s.filter isPrintableAscii))

/-- Whether a string starts with a whitespace character. -/
def headIsWs : List Char → Bool
  | [] => false
  | c :: _ => isPySpace c

/-- Whether a string ends with a whitespace character. -/
def lastIsWs : List Char → Bool
  | [] => false
  | [c] => isPySpace c
  | _ :: c :: l => lastIsWs (c :: l)

/-- No two adjacent characters are both whitespace. -/
def noDoubleWs : List Char → Bool
  | a :: b :: l => !(isPySpace a && isPySpace b) && noDoubleWs (b :: l)
  | _ => true


/-! ### Upload validation (`app.py`, `allowed_file`) -/

/-- ASCII fragment of Python's `str.lower`, applied characterwise. -/
def lowerChar (c : Char) : Char :=
  if 'A' ≤ c ∧ c ≤ 'Z' then Char.ofNat (c.toNat + 32) else c

def lowerStr (l : List Char) : List Char := l.map lowerChar

/-- `filename.rsplit('.', 1)[1]`: the substring after the last `'.'`
(meaningful when a dot is present, which `allowed_file` guards). -/
def extAfterLastDot (l : List Char) : List Char :=
  (l.reverse.takeWhile (fun c => !(c == '.'))).reverse

/-- The app configuration read from the environment:
`UPLOAD_FOLDER` and the `ALLOWED_EXTENSIONS` set (post-split). -/
structure AppConfig where
  uploadFolder : List Char
  allowedExtensions : List (List Char)

/-- `allowed_file` from `app.py`:
`'.' in filename and filename.rsplit('.', 1)[1].lower() in ALLOWED_EXTENSIONS`. -/
def allowed_file (cfg : AppConfig) (filename : List Char) : Bool :=
  filename.contains '.' && cfg.allowedExtensions.contains (lowerStr (extAfterLastDot filename))

/-- The default allow-set: `"jpg,jpeg,png".split(',')`. -/
def defaultAllowedExtensions : List (List Char) :=
  ["jpg".data, "jpeg".data, "png".data]


/-! ### Image preprocessing (`ocr_utils/preprocess.py`, `preprocess_image`) -/

/-- A single-channel intensity bitmap: rows of pixel values. -/
abbrev Image : Type := List (List Nat)

/-- Error raised by `preprocess_image`:
`FileNotFoundError(f"Image not found: {image_path}")`. -/
inductive PreprocessError where
  | fileNotFound (msg : List Char)
  deriving DecidableEq, Repr

/-- The OpenCV operations `preprocess_image` delegates to, abstracted:
the grayscale decoder (`cv2.imread`, `none` when it cannot decode), the
5×5 Gaussian blur, and the Gaussian-weighted 11×11 local mean that
`cv2.adaptiveThreshold(..., ADAPTIVE_THRESH_GAUSSIAN_C, ...)` computes
per pixel before subtracting the constant offset. -/
structure CvEnv where
  imread : List Char → Option Image
  gaussianBlur5x5 : Image → Image
  adaptiveMean11 : Image → Nat → Nat → Int

/-- One row of `cv2.adaptiveThreshold` output with `THRESH_BINARY` and
`maxValue = 255`: pixel becomes 255 when it exceeds the local threshold
`mean - C`, else 0. -/
def threshRow (t : Nat → Int) (cc : Int) : Nat → List Nat → List Nat
  | _, [] => []
  | j, p :: ps => (if (p : Int) > t j - cc then 255 else 0) :: threshRow t cc (j + 1) ps

def threshImage (t : Nat → Nat → Int) (cc : Int) : Nat → Image → Image
  | _, [] => []
  | i, row :: rows => threshRow (t i) cc 0 row :: threshImage t cc (i + 1) rows

/-- `cv2.adaptiveThreshold(img, 255, ADAPTIVE_THRESH_GAUSSIAN_C,
THRESH_BINARY, 11, 2)` with the local mean supplied by the environment. -/
def adaptiveThreshold (env : CvEnv) (img : Image) : Image :=
  threshImage (env.adaptiveMean11 img) 2 0 img

/-- `preprocess_image` from `ocr_utils/preprocess.py`: grayscale decode,
raise `FileNotFoundError` when the decoder returns no data, else
Gaussian blur then adaptive threshold. -/
def preprocess_image (env : CvEnv) (image_path : List Char) : Except PreprocessError Image :=
  match env.imread image_path with
  | none => .error (.fileNotFound ("Image not found: ".data ++ image_path))
  | some img =>
    let img_blur := env.gaussianBlur5x5 img
    .ok (adaptiveThreshold env img_blur)

/-! ### OCR reader (`ocr_utils/reader.py`, `extract_text_from_image`) -/

/-- One EasyOCR detection: bounding region, transcribed string, and a
confidence score (a float in the source, abstracted to an opaque
numerator since the code under verification never reads it). -/
structure Detection where
  bbox : List (Int × Int)
  text : List Char
  confidence : Nat

/-- A fault inside the recognition engine (`reader.readtext`). -/
structure EngineError where
  msg : List Char
  deriving DecidableEq, Repr

/-- The EasyOCR engine, abstracted: the process-wide `reader` object's
`readtext`, which may fault. -/
structure OcrEnv extends CvEnv where
  readtext : Image → Except EngineError (List Detection)

/-- An exception escaping the pipeline: either the preprocessing
`FileNotFoundError` or an engine fault. -/
inductive PipelineError where
  | preprocess (e : PreprocessError)
  | engine (e : EngineError)
  deriving DecidableEq, Repr

/-- `" ".join(strings)`. -/
def joinSpace : List (List Char) → List Char
  | [] => []
  | [s] => s
  | s :: rest => s ++ ' ' :: joinSpace rest

/-- `extract_text_from_image` from `ocr_utils/reader.py`: preprocess,
run the engine, join the detected strings with single spaces in
detection order, clean the result.  Exceptions propagate. -/
def extract_text_from_image (env : OcrEnv) (image_path : List Char) :
    Except PipelineError (List Char) :=
  match preprocess_image env.toCvEnv image_path with
  | .error e => .error (.preprocess e)
  | .ok preprocessed_img =>
    match env.readtext preprocessed_img with
    | .error e => .error (.engine e)
    | .ok result =>
      let raw_text := joinSpace (result.map Detection.text)
      .ok (clean_text raw_text)

/-! ### Request handler (`app.py`, route `/extract-text`) -/

/-- The multipart file field: Werkzeug's `FileStorage`, keeping the
client-declared filename and the byte content. -/
structure UploadedFile where
  filename : List Char
  content : List Nat

/-- An inbound request, as the handler sees it: the optional `'file'`
entry of `request.files`. -/
structure Request where
  file : Option UploadedFile

/-- The upload directory's contents, as a membership predicate on paths. -/
def FS : Type := List Char → Bool

def FS.save (fs : FS) (path : List Char) : FS :=
  fun q => q == path || fs q

def FS.remove (fs : FS) (path : List Char) : FS :=
  fun q => if q == path then false else fs q

/-- A JSON response body produced by the handler. -/
inductive Body where
  | error (msg : List Char)
  | extracted (text : List Char)
  deriving DecidableEq

/-- What one request leaves behind: either the handler's response
(status, body) or an exception that escaped it uncaught, together with
the final state of the upload directory. -/
structure HandlerOutcome where
  result : Except PipelineError (Nat × Body)
  fs : FS

/-- `os.path.join(UPLOAD_FOLDER, filename)`. -/
def pathJoin (folder name : List Char) : List Char :=
  folder ++ '/' :: name

/-- The `/extract-text` handler from `app.py`.  `secure` abstracts
Werkzeug's `secure_filename`.  Control flow follows the source: missing
field → 400; empty filename → 400; disallowed extension → 400; else
save, run the pipeline, remove the file, 200 — with `os.remove`
unreachable when the pipeline raises. -/
def extract_text (env : OcrEnv) (secure : List Char → List Char) (cfg : AppConfig)
    (req : Request) (fs : FS) : HandlerOutcome :=
  match req.file with
  | none => ⟨.ok (400, .error "No file part in request".data), fs⟩
  | some file =>
    if file.filename = [] then
      ⟨.ok (400, .error "No selected file".data), fs⟩
    else if !allowed_file cfg file.filename then
      ⟨.ok (400, .error "Unsupported file type".data), fs⟩
    else
      let filename := secure file.filename
      let file_path := pathJoin cfg.uploadFolder filename
      let fs1 := fs.save file_path
      match extract_text_from_image env file_path with
      | .error e => ⟨.error e, fs1⟩
      | .ok extracted_text => ⟨.ok (200, .extracted extracted_text), fs1.remove file_path⟩

/-! ### Concrete fixtures used to instantiate the theorems -/

/-- The default configuration: `UPLOAD_FOLDER = "app/uploads"`,
`ALLOWED_EXTENSIONS = {jpg, jpeg, png}`. -/
def cfg0 : AppConfig := ⟨"app/uploads".data, defaultAllowedExtensions⟩

/-- An empty upload directory. -/
def fsEmpty : FS := fun _ => false

/-- An environment whose decoder rejects every path (missing/corrupt file). -/
def envDecodeFail : OcrEnv where
  imread := fun _ => none
  gaussianBlur5x5 := id
  adaptiveMean11 := fun _ _ _ => 0
  readtext := fun _ => .ok []

/-- An environment whose decoder succeeds but whose engine faults. -/
def envEngineFail : OcrEnv where
  imread := fun _ => some [[]]
  gaussianBlur5x5 := id
  adaptiveMean11 := fun _ _ _ => 0
  readtext := fun _ => .error ⟨"easyocr fault".data⟩

/-- An environment that recognizes two detections, in detection order. -/
def envTwoDetections : OcrEnv where
  imread := fun _ => some [[]]
  gaussianBlur5x5 := id
  adaptiveMean11 := fun _ _ _ => 0
  readtext := fun _ => .ok [⟨[], "Hello".data, 9⟩, ⟨[], "World".data, 8⟩]

/-- A decoder environment producing a concrete 1×2 grayscale image. -/
def cvSmall : CvEnv where
  imread := fun _ => some [[0, 300]]
  gaussianBlur5x5 := id
  adaptiveMean11 := fun _ _ _ => 10

/-! ### Normalizer lemmas -/

theorem space_of_printable_pySpace {c : Char} (hp : isPrintableAscii c = true)
    (hw : isPySpace c = true) : c = ' ' := by
  simp only [isPySpace, Bool.or_eq_true, beq_iff_eq, or_assoc] at hw
  rcases hw with h|h|h|h|h|h|h|h|h|h|h|h|h|h|h|h|h|h|h|h|h|h|h|h|h|h|h|h|h <;>
    subst h <;> revert hp <;> decide

theorem rstrip_cons_of_nil {a : Char} {l : List Char} (hr : rstripChars l = []) :
    rstripChars (a :: l) = if isPySpace a then [] else [a] := by
  simp [rstripChars, hr]

theorem rstrip_cons_of_cons {a d : Char} {l m : List Char} (hr : rstripChars l = d :: m) :
    rstripChars (a :: l) = a :: d :: m := by
  simp [rstripChars, hr]

theorem ndw_cons (a : Char) (l : List Char) :
    noDoubleWs (a :: l) = (!(isPySpace a && headIsWs l) && noDoubleWs l) := by
  cases l <;> simp [noDoubleWs, headIsWs]

theorem ndw_tail {a : Char} {l : List Char} (h : noDoubleWs (a :: l) = true) :
    noDoubleWs l = true := by
  rw [ndw_cons] at h
  simp only [Bool.and_eq_true] at h
  exact h.2

theorem mem_collapseAux {c : Char} (l : List Char) : ∀ b : Bool,
    c ∈ collapseAux b l → c ∈ l ∨ c = ' ' := by
  induction l with
  | nil => intro b h; simp [collapseAux] at h
  | cons a l ih =>
    intro b h
    cases ha : isPySpace a with
    | true =>
      cases b with
      | true =>
        simp only [collapseAux, ha, if_true] at h
        rcases ih true h with h1 | h1
        · exact Or.inl (List.mem_cons_of_mem _ h1)
        · exact Or.inr h1
      | false =>
        simp only [collapseAux, ha, if_true] at h
        rcases List.mem_cons.mp h with h1 | h1
        · exact Or.inr h1
        · rcases ih true h1 with h2 | h2
          · exact Or.inl (List.mem_cons_of_mem _ h2)
          · exact Or.inr h2
    | false =>
      simp only [collapseAux, ha] at h
      rcases List.mem_cons.mp h with h1 | h1
      · exact Or.inl (h1 ▸ List.mem_cons_self _ _)
      · rcases ih false h1 with h2 | h2
        · exact Or.inl (List.mem_cons_of_mem _ h2)
        · exact Or.inr h2

theorem headIsWs_collapseAux_true (l : List Char) :
    headIsWs (collapseAux true l) = false := by
  induction l with
  | nil => rfl
  | cons a l ih =>
    cases ha : isPySpace a with
    | true => simpa [collapseAux, ha] using ih
    | false => simp [collapseAux, ha, headIsWs]

theorem ndw_collapseAux (l : List Char) : ∀ b : Bool,
    noDoubleWs (collapseAux b l) = true := by
  induction l with
  | nil => intro b; rfl
  | cons a l ih =>
    intro b
    cases ha : isPySpace a with
    | true =>
      cases b with
      | true => simpa [collapseAux, ha] using ih true
      | false =>
        simp only [collapseAux, ha, if_true]
        have hh := headIsWs_collapseAux_true l
        have h1 := ih true
        cases hx : collapseAux true l with
        | nil => rfl
        | cons d m =>
          rw [hx] at hh h1
          simp only [headIsWs] at hh
          simp [noDoubleWs, hh, h1]
    | false =>
      have h1 := ih false
      cases hx : collapseAux false l with
      | nil => simp [collapseAux, ha, hx, noDoubleWs]
      | cons d m =>
        rw [hx] at h1
        simp only [collapseAux, ha, if_false, hx]
        simp [ndw_cons, headIsWs, ha, h1]

theorem collapseAux_eq_self (l : List Char) (hnd : noDoubleWs l = true)
    (hsp : ∀ c ∈ l, isPySpace c = true → c = ' ') :
    ∀ b : Bool, (b = true → headIsWs l = false) → collapseAux b l = l := by
  induction l with
  | nil => intro b _; rfl
  | cons a l ih =>
    intro b hb
    cases ha : isPySpace a with
    | true =>
      cases b with
      | true =>
        have := hb rfl
        simp [headIsWs, ha] at this
      | false =>
        have haeq : a = ' ' := hsp a (List.mem_cons_self _ _) ha
        have hhl : headIsWs l = false := by
          rw [ndw_cons] at hnd
          simp only [Bool.and_eq_true] at hnd
          have hnd1 := hnd.1
          simp [ha] at hnd1
          exact hnd1
        have hrec := ih (ndw_tail hnd)
          (fun c hc => hsp c (List.mem_cons_of_mem _ hc)) true (fun _ => hhl)
        subst haeq
        simp [collapseAux, ha, hrec]
    | false =>
      have hrec := ih (ndw_tail hnd)
        (fun c hc => hsp c (List.mem_cons_of_mem _ hc)) false (fun h => nomatch h)
      simp [collapseAux, ha, hrec]

theorem ndw_dropWhile (p : Char → Bool) (l : List Char) (h : noDoubleWs l = true) :
    noDoubleWs (l.dropWhile p) = true := by
  induction l with
  | nil => exact h
  | cons a l ih =>
    cases hp : p a with
    | true => rw [List.dropWhile_cons_of_pos hp]; exact ih (ndw_tail h)
    | false => rw [List.dropWhile_cons_of_neg (by simp [hp])]; exact h

theorem headIsWs_dropWhile (l : List Char) :
    headIsWs (l.dropWhile isPySpace) = false := by
  induction l with
  | nil => rfl
  | cons a l ih =>
    cases ha : isPySpace a with
    | true => rw [List.dropWhile_cons_of_pos ha]; exact ih
    | false => rw [List.dropWhile_cons_of_neg (by simp [ha])]; simp [headIsWs, ha]

theorem dropWhile_eq_self_of_head (l : List Char) (h : headIsWs l = false) :
    l.dropWhile isPySpace = l := by
  cases l with
  | nil => rfl
  | cons a l =>
    simp only [headIsWs] at h
    exact List.dropWhile_cons_of_neg (by simp [h])

theorem mem_rstripChars {c : Char} : ∀ l : List Char, c ∈ rstripChars l → c ∈ l := by
  intro l
  induction l with
  | nil => exact fun h => h
  | cons a l ih =>
    intro h
    cases hr : rstripChars l with
    | nil =>
      rw [rstrip_cons_of_nil hr] at h
      cases ha : isPySpace a with
      | true => simp [ha] at h
      | false =>
        simp [ha] at h
        exact h ▸ List.mem_cons_self _ _
    | cons d m =>
      rw [rstrip_cons_of_cons hr] at h
      rcases List.mem_cons.mp h with h1 | h1
      · exact h1 ▸ List.mem_cons_self _ _
      · exact List.mem_cons_of_mem _ (ih (hr ▸ h1))

theorem rstrip_front (a : Char) (l : List Char) :
    rstripChars (a :: l) = [] ∨ ∃ m, rstripChars (a :: l) = a :: m := by
  cases hr : rstripChars l with
  | nil =>
    cases ha : isPySpace a with
    | true => left; rw [rstrip_cons_of_nil hr]; simp [ha]
    | false => right; exact ⟨[], by rw [rstrip_cons_of_nil hr]; simp [ha]⟩
  | cons d m => right; exact ⟨d :: m, rstrip_cons_of_cons hr⟩

theorem headIsWs_rstrip (l : List Char) (h : headIsWs l = false) :
    headIsWs (rstripChars l) = false := by
  cases l with
  | nil => rfl
  | cons a l =>
    rcases rstrip_front a l with h1 | ⟨m, h1⟩
    · rw [h1]; rfl
    · rw [h1]; simpa [headIsWs] using h

theorem ndw_rstrip (l : List Char) (h : noDoubleWs l = true) :
    noDoubleWs (rstripChars l) = true := by
  induction l with
  | nil => exact h
  | cons a l ih =>
    cases hr : rstripChars l with
    | nil =>
      rw [rstrip_cons_of_nil hr]
      cases ha : isPySpace a <;> simp [ha, noDoubleWs]
    | cons d m =>
      rw [rstrip_cons_of_cons hr]
      have h2 := ih (ndw_tail h)
      rw [hr] at h2
      cases l with
      | nil => simp [rstripChars] at hr
      | cons e l' =>
        rcases rstrip_front e l' with h3 | ⟨m', h3⟩
        · rw [h3] at hr; cases hr
        · rw [h3] at hr
          injection hr with hde _
          simp only [noDoubleWs, Bool.and_eq_true] at h ⊢
          refine ⟨?_, h2⟩
          have := h.1
          rw [hde] at this
          exact this

theorem lastIsWs_rstrip (l : List Char) : lastIsWs (rstripChars l) = false := by
  induction l with
  | nil => rfl
  | cons a l ih =>
    cases hr : rstripChars l with
    | nil =>
      rw [rstrip_cons_of_nil hr]
      cases ha : isPySpace a with
      | true => simp [ha, lastIsWs]
      | false => simp [ha, lastIsWs]
    | cons d m =>
      rw [rstrip_cons_of_cons hr]
      rw [hr] at ih
      exact ih

theorem rstrip_eq_self (l : List Char) (h : lastIsWs l = false) : rstripChars l = l := by
  induction l with
  | nil => rfl
  | cons a l ih =>
    cases l with
    | nil =>
      rw [rstrip_cons_of_nil (l := []) rfl]
      simp only [lastIsWs] at h
      simp [h]
    | cons d m =>
      have h' : lastIsWs (d :: m) = false := h
      exact rstrip_cons_of_cons (ih h')

theorem collapseAux_nonws (w : List Char) (hw : ∀ c ∈ w, isPySpace c = false) :
    ∀ b : Bool, collapseAux b w = w := by
  induction w with
  | nil => intro b; rfl
  | cons a w ih =>
    intro b
    have ha := hw a (List.mem_cons_self _ _)
    simp [collapseAux, ha, ih (fun c hc => hw c (List.mem_cons_of_mem _ hc)) false]

theorem collapseAux_append_nonws (w r : List Char) (hw : ∀ c ∈ w, isPySpace c = false) :
    collapseAux false (w ++ r) = w ++ collapseAux false r := by
  induction w with
  | nil => rfl
  | cons a w ih =>
    have ha := hw a (List.mem_cons_self _ _)
    simp [collapseAux, ha, ih (fun c hc => hw c (List.mem_cons_of_mem _ hc))]

theorem collapseAux_true_spaces (k : Nat) (r : List Char) :
    collapseAux true (List.replicate k ' ' ++ r) = collapseAux true r := by
  induction k with
  | zero => rfl
  | succ k ih =>
    rw [List.replicate_succ, List.cons_append]
    simpa [collapseAux] using ih

theorem headIsWs_append_cons (c : Char) (w r : List Char) :
    headIsWs ((c :: w) ++ r) = isPySpace c := rfl

theorem lastIsWs_append (l : List Char) : ∀ r : List Char, r ≠ [] →
    lastIsWs (l ++ r) = lastIsWs r := by
  induction l with
  | nil => intro r _; rfl
  | cons a l ih =>
    intro r hr
    rw [List.cons_append]
    cases hx : l ++ r with
    | nil => exact absurd (List.append_eq_nil.mp hx).2 hr
    | cons d m =>
      have : lastIsWs (a :: d :: m) = lastIsWs (d :: m) := rfl
      rw [this, ← hx, ih r hr]

theorem lastIsWs_of_nonws (w : List Char) (hw : ∀ c ∈ w, isPySpace c = false) :
    lastIsWs w = false := by
  induction w with
  | nil => rfl
  | cons a w ih =>
    cases w with
    | nil => exact hw a (List.mem_cons_self _ _)
    | cons d m =>
      have : lastIsWs (a :: d :: m) = lastIsWs (d :: m) := rfl
      rw [this]
      exact ih (fun c hc => hw c (List.mem_cons_of_mem _ hc))

theorem mem_clean_text_printable {s : List Char} {c : Char} (h : c ∈ clean_text s) :
    isPrintableAscii c = true := by
  unfold clean_text stripChars collapseWs at h
  have h1 := mem_rstripChars _ h
  have h2 := (List.dropWhile_sublist _).mem h1
  rcases mem_collapseAux _ false h2 with h3 | h3
  · exact (List.mem_filter.mp h3).2
  · subst h3; decide

theorem ndw_clean_text (s : List Char) : noDoubleWs (clean_text s) = true :=
  ndw_rstrip _ (ndw_dropWhile _ _ (ndw_collapseAux _ false))

theorem headIsWs_clean_text (s : List Char) : headIsWs (clean_text s) = false :=
  headIsWs_rstrip _ (headIsWs_dropWhile _)

theorem lastIsWs_clean_text (s : List Char) : lastIsWs (clean_text s) = false :=
  lastIsWs_rstrip _

theorem clean_text_space_run (w1 w2 : List Char) (k : Nat) (h1 : w1 ≠ []) (h2 : w2 ≠ [])
    (hw : ∀ c ∈ w1 ++ w2, isPrintableAscii c = true ∧ isPySpace c = false) :
    clean_text (w1 ++ (List.replicate (k + 1) ' ' ++ w2)) = w1 ++ ' ' :: w2 := by
  have hw1p : ∀ c ∈ w1, isPrintableAscii c = true :=
    fun c hc => (hw c (List.mem_append_left _ hc)).1
  have hw1s : ∀ c ∈ w1, isPySpace c = false :=
    fun c hc => (hw c (List.mem_append_left _ hc)).2
  have hw2p : ∀ c ∈ w2, isPrintableAscii c = true :=
    fun c hc => (hw c (List.mem_append_right _ hc)).1
  have hw2s : ∀ c ∈ w2, isPySpace c = false :=
    fun c hc => (hw c (List.mem_append_right _ hc)).2
  have hfilter :
      (w1 ++ (List.replicate (k + 1) ' ' ++ w2)).filter isPrintableAscii
        = w1 ++ (List.replicate (k + 1) ' ' ++ w2) := by
    refine List.filter_eq_self.mpr ?_
    intro c hc
    rcases List.mem_append.mp hc with hc1 | hc2
    · exact hw1p c hc1
    · rcases List.mem_append.mp hc2 with hc3 | hc4
      · rw [List.eq_of_mem_replicate hc3]; decide
      · exact hw2p c hc4
  have hcoll : collapseWs (w1 ++ (List.replicate (k + 1) ' ' ++ w2)) = w1 ++ ' ' :: w2 := by
    unfold collapseWs
    rw [collapseAux_append_nonws w1 _ hw1s]
    rw [List.replicate_succ, List.cons_append]
    have hstep :
        collapseAux false (' ' :: (List.replicate k ' ' ++ w2))
          = ' ' :: collapseAux true (List.replicate k ' ' ++ w2) := by
      simp [collapseAux, show isPySpace ' ' = true from by decide]
    rw [hstep, collapseAux_true_spaces, collapseAux_nonws w2 hw2s true]
  have hhead : headIsWs (w1 ++ ' ' :: w2) = false := by
    cases w1 with
    | nil => exact absurd rfl h1
    | cons c w1' => rw [headIsWs_append_cons]; exact hw1s c (List.mem_cons_self _ _)
  have hlast : lastIsWs (w1 ++ ' ' :: w2) = false := by
    rw [lastIsWs_append _ _ (List.cons_ne_nil _ _)]
    cases w2 with
    | nil => exact absurd rfl h2
    | cons d m =>
      have hstep : lastIsWs (' ' :: d :: m) = lastIsWs (d :: m) := rfl
      rw [hstep]
      exact lastIsWs_of_nonws _ hw2s
  show stripChars (collapseWs ((w1 ++ (List.replicate (k + 1) ' ' ++ w2)).filter
    isPrintableAscii)) = w1 ++ ' ' :: w2
  rw [hfilter, hcoll]
  unfold stripChars
  rw [dropWhile_eq_self_of_head _ hhead, rstrip_eq_self _ hlast]

theorem clean_text_nonprintable_run (w1 w2 mid : List Char) (h1 : w1 ≠ []) (h2 : w2 ≠ [])
    (hw : ∀ c ∈ w1 ++ w2, isPrintableAscii c = true ∧ isPySpace c = false)
    (hm : ∀ c ∈ mid, isPrintableAscii c = false) :
    clean_text (w1 ++ (mid ++ w2)) = w1 ++ w2 := by
  have hw1p : ∀ c ∈ w1, isPrintableAscii c = true :=
    fun c hc => (hw c (List.mem_append_left _ hc)).1
  have hw2p : ∀ c ∈ w2, isPrintableAscii c = true :=
    fun c hc => (hw c (List.mem_append_right _ hc)).1
  have hws : ∀ c ∈ w1 ++ w2, isPySpace c = false := fun c hc => (hw c hc).2
  have hfilter :
      (w1 ++ (mid ++ w2)).filter isPrintableAscii = w1 ++ w2 := by
    rw [List.filter_append, List.filter_append]
    rw [List.filter_eq_self.mpr hw1p, List.filter_eq_self.mpr hw2p]
    rw [List.filter_eq_nil_iff.mpr (fun c hc => by simp [hm c hc])]
    rfl
  have hcoll : collapseWs (w1 ++ w2) = w1 ++ w2 := collapseAux_nonws _ hws false
  have hhead : headIsWs (w1 ++ w2) = false := by
    cases w1 with
    | nil => exact absurd rfl h1
    | cons c w1' => rw [headIsWs_append_cons]; exact hws c (List.mem_cons_self _ _)
  have hlast : lastIsWs (w1 ++ w2) = false := by
    cases w2 with
    | nil => exact absurd rfl h2
    | cons d m =>
      rw [lastIsWs_append _ _ (List.cons_ne_nil _ _)]
      exact lastIsWs_of_nonws _ (fun c hc => hws c (List.mem_append_right _ hc))
  show stripChars (collapseWs ((w1 ++ (mid ++ w2)).filter isPrintableAscii)) = w1 ++ w2
  rw [hfilter, hcoll]
  unfold stripChars
  rw [dropWhile_eq_self_of_head _ hhead, rstrip_eq_self _ hlast]

theorem clean_text_idem (s : List Char) : clean_text (clean_text s) = clean_text s := by
  have hpr : ∀ c ∈ clean_text s, isPrintableAscii c = true :=
    fun c hc => mem_clean_text_printable hc
  have h1 : (clean_text s).filter isPrintableAscii = clean_text s :=
    List.filter_eq_self.mpr hpr
  have h2 : collapseWs (clean_text s) = clean_text s :=
    collapseAux_eq_self _ (ndw_clean_text s)
      (fun c hc hw => space_of_printable_pySpace (hpr c hc) hw) false (fun h => nomatch h)
  have h3 : (clean_text s).dropWhile isPySpace = clean_text s :=
    dropWhile_eq_self_of_head _ (headIsWs_clean_text s)
  have h4 : rstripChars (clean_text s) = clean_text s :=
    rstrip_eq_self _ (lastIsWs_clean_text s)
  show stripChars (collapseWs ((clean_text s).filter isPrintableAscii)) = clean_text s
  rw [h1, h2]
  unfold stripChars
  rw [h3, h4]

/-! ### Handler and preprocessing lemmas -/

theorem extract_text_accepted (env : OcrEnv) (secure : List Char → List Char) (cfg : AppConfig)
    (file : UploadedFile) (fs : FS)
    (hne : file.filename ≠ []) (hext : allowed_file cfg file.filename = true) :
    extract_text env secure cfg ⟨some file⟩ fs =
      match extract_text_from_image env (pathJoin cfg.uploadFolder (secure file.filename)) with
      | .error e => ⟨.error e, fs.save (pathJoin cfg.uploadFolder (secure file.filename))⟩
      | .ok t => ⟨.ok (200, .extracted t),
          (fs.save (pathJoin cfg.uploadFolder (secure file.filename))).remove
            (pathJoin cfg.uploadFolder (secure file.filename))⟩ := by
  unfold extract_text
  simp [hne, hext]

theorem mem_threshRow (t : Nat → Int) (cc : Int) :
    ∀ (j : Nat) (ps : List Nat) (p : Nat), p ∈ threshRow t cc j ps → p = 255 ∨ p = 0 := by
  intro j ps
  induction ps generalizing j with
  | nil => intro p h; simp [threshRow] at h
  | cons q ps ih =>
    intro p h
    simp only [threshRow] at h
    rcases List.mem_cons.mp h with h1 | h1
    · by_cases hq : (q : Int) > t j - cc
      · left; rw [h1, if_pos hq]
      · right; rw [h1, if_neg hq]
    · exact ih (j + 1) p h1

theorem mem_threshImage (t : Nat → Nat → Int) (cc : Int) :
    ∀ (i : Nat) (img : Image) (row : List Nat), row ∈ threshImage t cc i img →
      ∀ p ∈ row, p = 255 ∨ p = 0 := by
  intro i img
  induction img generalizing i with
  | nil => intro row h; simp [threshImage] at h
  | cons r rows ih =>
    intro row h p hp
    simp only [threshImage] at h
    rcases List.mem_cons.mp h with h1 | h1
    · exact mem_threshRow _ _ 0 r p (h1 ▸ hp)
    · exact ih (i + 1) row h1 p hp

/-! ### Claims -/

/-- C4 (confirmed): a request with no `file` multipart field gets
HTTP 400 with body exactly `{"error": "No file part in request"}`, and
the upload directory is unchanged — for every environment,
configuration, sanitizer and starting filesystem. -/
theorem claim_C4 (env : OcrEnv) (secure : List Char → List Char) (cfg : AppConfig) (fs : FS) :
    extract_text env secure cfg ⟨none⟩ fs
      = ⟨.ok (400, .error "No file part in request".data), fs⟩ := rfl

/-- C3 (confirmed): a request whose file has a disallowed extension
(`allowed_file` false) is answered 400 with the filesystem unchanged;
the right-hand side does not mention `env`, so no preprocessing or OCR
call occurs on any such request. -/
theorem claim_C3 (env : OcrEnv) (secure : List Char → List Char) (cfg : AppConfig)
    (file : UploadedFile) (fs : FS) (h : allowed_file cfg file.filename = false) :
    extract_text env secure cfg ⟨some file⟩ fs
      = ⟨.ok (400, .error (if file.filename = [] then "No selected file".data
          else "Unsupported file type".data)), fs⟩ := by
  unfold extract_text
  by_cases hf : file.filename = []
  · simp [hf]
  · simp [hf, h]

/-- Witness for C3: `data.txt` with the default configuration. -/
theorem claim_C3_witness :
    extract_text envTwoDetections id cfg0 ⟨some ⟨"data.txt".data, []⟩⟩ fsEmpty
      = ⟨.ok (400, .error (if ("data.txt".data : List Char) = [] then "No selected file".data
          else "Unsupported file type".data)), fsEmpty⟩ :=
  claim_C3 envTwoDetections id cfg0 ⟨"data.txt".data, []⟩ fsEmpty (by decide)

/-- Witness for C4: the default configuration and an empty directory. -/
theorem claim_C4_witness :
    extract_text envTwoDetections id cfg0 ⟨none⟩ fsEmpty
      = ⟨.ok (400, .error "No file part in request".data), fsEmpty⟩ :=
  claim_C4 envTwoDetections id cfg0 fsEmpty

/-- C10 (confirmed): `allowed_file` is total and rejects any filename
with no dot, and the handler answers such a (nonempty-named) upload
with the 400 Unsupported-file-type response for every environment. -/
theorem claim_C10 (cfg : AppConfig) (filename : List Char)
    (hdot : filename.contains '.' = false) :
    allowed_file cfg filename = false ∧
    ∀ (env : OcrEnv) (secure : List Char → List Char) (content : List Nat) (fs : FS),
      filename ≠ [] →
      extract_text env secure cfg ⟨some ⟨filename, content⟩⟩ fs
        = ⟨.ok (400, .error "Unsupported file type".data), fs⟩ := by
  have haf : allowed_file cfg filename = false := by
    unfold allowed_file
    rw [hdot]
    rfl
  refine ⟨haf, ?_⟩
  intro env secure content fs hne
  unfold extract_text
  simp [hne, haf]

/-- Witness for C10: the extensionless filename `noext`. -/
theorem claim_C10_witness :
    allowed_file cfg0 "noext".data = false ∧
    extract_text envTwoDetections id cfg0 ⟨some ⟨"noext".data, []⟩⟩ fsEmpty
      = ⟨.ok (400, .error "Unsupported file type".data), fsEmpty⟩ :=
  ⟨(claim_C10 cfg0 "noext".data (by decide)).1,
   (claim_C10 cfg0 "noext".data (by decide)).2 envTwoDetections id [] fsEmpty (by decide)⟩

/-- Counterexample to C5: with `"JPG"` (uppercase) in the configured
allow-set, the filename `photo.JPG` — whose extension equals that entry
case-insensitively — is rejected, because the code lowercases only the
filename's extension and compares it verbatim against the configured
entries. -/
theorem claim_C5_counterexample :
    ("JPG".data ∈ (AppConfig.mk "app/uploads".data ["JPG".data]).allowedExtensions
      ∧ lowerStr (extAfterLastDot "photo.JPG".data) = lowerStr "JPG".data)
    ∧ allowed_file ⟨"app/uploads".data, ["JPG".data]⟩ "photo.JPG".data = false := by
  decide

/-- C5 amended: matching is case-insensitive in the filename only — for
any configured extension given in lowercase, a filename whose substring
after the last dot equals it under case-insensitive comparison is
accepted, whatever letter case the filename uses. -/
theorem claim_C5_theorem (cfg : AppConfig) (filename e : List Char)
    (he : e ∈ cfg.allowedExtensions) (hlow : lowerStr e = e)
    (hdot : filename.contains '.' = true)
    (hmatch : lowerStr (extAfterLastDot filename) = lowerStr e) :
    allowed_file cfg filename = true := by
  unfold allowed_file
  rw [hdot, hmatch, hlow]
  simp [List.contains]
  exact he

/-- Witness for C5: `note.JPG` against the lowercase default allow-set. -/
theorem claim_C5_witness : allowed_file cfg0 "note.JPG".data = true :=
  claim_C5_theorem cfg0 "note.JPG".data "jpg".data (by decide) (by decide) (by decide) (by decide)

/-- Counterexample to C2: two printable words separated only by a tab
come out concatenated, not separated by a single space — the tab is
outside printable ASCII, so the first substitution deletes it before
whitespace runs are collapsed. -/
theorem claim_C2_counterexample :
    clean_text ('a' :: '\t' :: 'b' :: []) = ('a' :: 'b' :: [])
    ∧ clean_text ('a' :: '\t' :: 'b' :: []) ≠ ('a' :: ' ' :: 'b' :: []) := by
  decide

/-- C2 amended: `clean_text` collapses any run of space characters
between two printable words into one space, while words separated only
by non-printable characters (tabs, newlines, and the rest) are joined
with no separator, those characters having been removed first. -/
theorem claim_C2_theorem :
    (∀ (w1 w2 : List Char) (k : Nat), w1 ≠ [] → w2 ≠ [] →
      (∀ c ∈ w1 ++ w2, isPrintableAscii c = true ∧ isPySpace c = false) →
      clean_text (w1 ++ (List.replicate (k + 1) ' ' ++ w2)) = w1 ++ ' ' :: w2)
    ∧ (∀ (w1 w2 mid : List Char), w1 ≠ [] → w2 ≠ [] →
      (∀ c ∈ w1 ++ w2, isPrintableAscii c = true ∧ isPySpace c = false) →
      (∀ c ∈ mid, isPrintableAscii c = false) →
      clean_text (w1 ++ (mid ++ w2)) = w1 ++ w2) :=
  ⟨clean_text_space_run, clean_text_nonprintable_run⟩

/-- Witness for C2 amended: `"ab   cd"` collapses to `"ab cd"`, while
`"ab\t\ncd"` becomes `"abcd"`. -/
theorem claim_C2_witness :
    clean_text ("ab".data ++ (List.replicate 3 ' ' ++ "cd".data)) = "ab".data ++ ' ' :: "cd".data
    ∧ clean_text ("ab".data ++ ("\t\n".data ++ "cd".data)) = "ab".data ++ "cd".data :=
  ⟨claim_C2_theorem.1 "ab".data "cd".data 2 (by decide) (by decide) (by decide),
   claim_C2_theorem.2 "ab".data "cd".data "\t\n".data (by decide) (by decide) (by decide)
     (by decide)⟩

/-- C8 (confirmed): the normalizer is idempotent — cleaning already
cleaned text changes nothing. -/
theorem claim_C8 (s : List Char) : clean_text (clean_text s) = clean_text s :=
  clean_text_idem s

/-- Witness for C8: a concrete messy input. -/
theorem claim_C8_witness :
    clean_text (clean_text " a \t b  ".data) = clean_text " a \t b  ".data :=
  claim_C8 " a \t b  ".data

/-- Counterexample to C1: an accepted request (allowed extension,
nonempty name) on which the pipeline raises — here the decoder fails —
leaves the temporary file present in the upload directory, because
`os.remove` sits after the pipeline call with no try/finally. -/
theorem claim_C1_counterexample :
    allowed_file cfg0 "note.jpg".data = true
    ∧ (extract_text envDecodeFail id cfg0 ⟨some ⟨"note.jpg".data, []⟩⟩ fsEmpty).fs
        (pathJoin cfg0.uploadFolder "note.jpg".data) = true := by
  exact ⟨by decide, by decide⟩

/-- C1 amended: for every accepted request, the temporary file is absent
from the upload directory after a successful (200) response, but remains
there whenever preprocessing or recognition raises — cleanup happens
only on the success path. -/
theorem claim_C1_theorem (env : OcrEnv) (secure : List Char → List Char) (cfg : AppConfig)
    (file : UploadedFile) (fs : FS)
    (hne : file.filename ≠ []) (hext : allowed_file cfg file.filename = true) :
    ((∃ t, (extract_text env secure cfg ⟨some file⟩ fs).result = .ok (200, .extracted t)) →
      (extract_text env secure cfg ⟨some file⟩ fs).fs
        (pathJoin cfg.uploadFolder (secure file.filename)) = false)
    ∧ (∀ e, (extract_text env secure cfg ⟨some file⟩ fs).result = .error e →
      (extract_text env secure cfg ⟨some file⟩ fs).fs
        (pathJoin cfg.uploadFolder (secure file.filename)) = true) := by
  rw [extract_text_accepted env secure cfg file fs hne hext]
  cases hx : extract_text_from_image env (pathJoin cfg.uploadFolder (secure file.filename)) with
  | error e =>
    constructor
    · rintro ⟨t, ht⟩
      simp at ht
    · intro e' _
      simp [FS.save]
  | ok t =>
    constructor
    · intro _
      simp [FS.remove]
    · intro e' he'
      simp at he'

/-- Witness for C1 amended: with a failing decoder the file persists. -/
theorem claim_C1_witness :
    (extract_text envDecodeFail id cfg0 ⟨some ⟨"note.jpg".data, []⟩⟩ fsEmpty).fs
      (pathJoin cfg0.uploadFolder (id "note.jpg".data)) = true :=
  (claim_C1_theorem envDecodeFail id cfg0 ⟨"note.jpg".data, []⟩ fsEmpty
    (by decide) (by decide)).2 _ rfl

/-- Counterexample to C7: an accepted request on which the engine faults
does not produce a structured 500-class response — the exception leaves
the handler uncaught (modelled by the `.error` outcome). -/
theorem claim_C7_counterexample :
    allowed_file cfg0 "note.jpg".data = true
    ∧ (extract_text envEngineFail id cfg0 ⟨some ⟨"note.jpg".data, []⟩⟩ fsEmpty).result
        = .error (.engine ⟨"easyocr fault".data⟩) :=
  ⟨by decide, rfl⟩

/-- C7 amended: the handler wraps the pipeline call in no try/except, so
any pipeline exception — an engine fault included — propagates uncaught
out of the request handler instead of being converted to a structured
500-class response. -/
theorem claim_C7_theorem (env : OcrEnv) (secure : List Char → List Char) (cfg : AppConfig)
    (file : UploadedFile) (fs : FS) (e : PipelineError)
    (hne : file.filename ≠ []) (hext : allowed_file cfg file.filename = true)
    (hfail : extract_text_from_image env (pathJoin cfg.uploadFolder (secure file.filename))
      = .error e) :
    (extract_text env secure cfg ⟨some file⟩ fs).result = .error e := by
  rw [extract_text_accepted env secure cfg file fs hne hext, hfail]

/-- Witness for C7 amended: the engine-fault environment. -/
theorem claim_C7_witness :
    (extract_text envEngineFail id cfg0 ⟨some ⟨"note.jpg".data, []⟩⟩ fsEmpty).result
      = .error (.engine ⟨"easyocr fault".data⟩) :=
  claim_C7_theorem envEngineFail id cfg0 ⟨"note.jpg".data, []⟩ fsEmpty
    (.engine ⟨"easyocr fault".data⟩) (by decide) (by decide) rfl

/-- C6 (confirmed): `preprocess_image` raises its file-not-found error
exactly when the decoder returns no data for the path; when the decoder
succeeds it returns, without raising, the blurred-then-adaptively-
thresholded image, which is binarized — every pixel is 255 or 0. -/
theorem claim_C6 (env : CvEnv) (path : List Char) :
    ((∃ msg, preprocess_image env path = .error (.fileNotFound msg)) ↔ env.imread path = none)
    ∧ (∀ img, env.imread path = some img →
        preprocess_image env path = .ok (adaptiveThreshold env (env.gaussianBlur5x5 img))
        ∧ ∀ row ∈ adaptiveThreshold env (env.gaussianBlur5x5 img), ∀ p ∈ row, p = 255 ∨ p = 0) := by
  constructor
  · constructor
    · rintro ⟨msg, hmsg⟩
      cases hi : env.imread path with
      | none => rfl
      | some img =>
        rw [preprocess_image, hi] at hmsg
        cases hmsg
    · intro hi
      exact ⟨_, by rw [preprocess_image, hi]⟩
  · intro img hi
    constructor
    · rw [preprocess_image, hi]
    · intro row hrow p hp
      unfold adaptiveThreshold at hrow
      exact mem_threshImage _ _ 0 _ row hrow p hp

/-- Witness for C6: a concrete decoder success, with the binarization
fact instantiated. -/
theorem claim_C6_witness :
    preprocess_image cvSmall "img.png".data
      = .ok (adaptiveThreshold cvSmall (cvSmall.gaussianBlur5x5 [[0, 300]]))
    ∧ ∀ row ∈ adaptiveThreshold cvSmall (cvSmall.gaussianBlur5x5 [[0, 300]]),
        ∀ p ∈ row, p = 255 ∨ p = 0 :=
  (claim_C6 cvSmall "img.png".data).2 [[0, 300]] rfl

/-- C9 (confirmed): when preprocessing and recognition succeed, the raw
string handed to the normalizer is exactly the detections' transcribed
strings, in detection order, joined by single spaces — regions and
confidence scores discarded. -/
theorem claim_C9 (env : OcrEnv) (path : List Char) (pre : Image) (dets : List Detection)
    (hpre : preprocess_image env.toCvEnv path = .ok pre)
    (hread : env.readtext pre = .ok dets) :
    extract_text_from_image env path
      = .ok (clean_text (joinSpace (dets.map Detection.text))) := by
  unfold extract_text_from_image
  rw [hpre]
  simp [hread]

/-- Witness for C9: two detections `Hello` and `World` join to
`Hello World` before cleaning. -/
theorem claim_C9_witness :
    extract_text_from_image envTwoDetections "img.png".data
      = .ok (clean_text (joinSpace (List.map Detection.text
          [⟨[], "Hello".data, 9⟩, ⟨[], "World".data, 8⟩]))) :=
  claim_C9 envTwoDetections "img.png".data [[]]
    [⟨[], "Hello".data, 9⟩, ⟨[], "World".data, 8⟩] rfl rfl

end Textweave
